import Mathlib

set_option maxRecDepth 40000

/-!
Verification development for the LawLord repository.

The repository consists of a PostgreSQL schema (`src/backend/db/schema.sql`)
defining the opinion store (`case_opinions`), its full-text-search trigger
(`update_opinion_search_vector` / `trg_opinion_search_vector`) and the
embedding table (`case_embeddings`), together with a React chat widget
(`src/frontend/src/components/ChatWidget.tsx`).

We shallowly embed the relational state as Lean structures and the SQL write
operations (INSERT, UPDATE with an explicit SET-column list, DELETE with
cascade, and the upsert described by the spec) as functions on that state.
Columns of `case_opinions` that participate in no constraint, trigger or claim
(dates, arrays, jsonb metadata, timestamps) are omitted from the row type; they
are inert payload for every property proved here.
-/

/-! ## Model of PostgreSQL tsvector

A `tsvector` is modelled as a list of (lexeme, weight) pairs.  `to_tsvector`
maps a text to its lexemes with the default weight `D`; the English
dictionary's tokenization details (stemming, stop words, position lists,
lexeme sorting) are abstracted to whitespace splitting.  Every property proved
below depends only on the interface facts that also hold of the real builtin:
`to_tsvector` of the empty string is the empty vector, `setweight` replaces
every weight, and `||` concatenates. -/

/-- The four PostgreSQL tsvector weight labels. -/
inductive TsWeight where
  | A
  | B
  | C
  | D
deriving DecidableEq, Repr

/-- A tsvector: a list of lexemes, each carrying a weight label. -/
abbrev TSVec := List (String × TsWeight)

/-- Split a character stream into maximal space-free words; `acc` holds the
characters of the current word, reversed. -/
def wordsAux : List Char → List Char → List String
  | acc, [] => if acc = [] then [] else [String.mk acc.reverse]
  | acc, c :: cs =>
    if c = ' ' then
      if acc = [] then wordsAux [] cs
      else String.mk acc.reverse :: wordsAux [] cs
    else wordsAux (c :: acc) cs

/-- Model of `to_tsvector('english', s)`: the lexemes of `s`, default weight `D`. -/
def to_tsvector (s : String) : TSVec :=
  (wordsAux [] s.data).map (fun w => (w, TsWeight.D))

/-- Model of `setweight(v, w)`: relabel every lexeme of `v` with weight `w`. -/
def setweight (v : TSVec) (w : TsWeight) : TSVec :=
  v.map (fun lw => (lw.1, w))

/-- Model of SQL `COALESCE(x, d)` on a nullable text column. -/
def coalesce (x : Option String) (d : String) : String :=
  x.getD d

/-! ## The `case_opinions` table

`schema.sql` lines 35-57.  Nullable columns are `Option`; `case_name NOT NULL`
and `court NOT NULL` are checked by the write operations, so the stored row
keeps the nullable type and the NOT NULL constraints appear as an invariant.
`source_id VARCHAR(200) UNIQUE` is a single-column unique constraint (the
schema does not declare the pair `(source, source_id)` unique). -/

/-- A stored row of `case_opinions` (constraint-relevant columns). -/
structure OpinionRow where
  id : Nat
  source : String
  source_id : Option String
  case_name : Option String
  court : Option String
  summary : Option String
  opinion_text : Option String
  search_vector : TSVec
deriving DecidableEq, Repr

/-- A row of `case_embeddings` (`schema.sql` lines 92-102).  The vector
components are never computed with, only counted, so they are modelled as
integers; `vector(1536)` fixes the length. -/
structure EmbeddingRow where
  id : Nat
  opinion_id : Nat
  model : String
  chunk_index : Nat
  chunk_text : Option String
  embedding : List Int
deriving DecidableEq, Repr

/-- The dimension `pgvector` enforces for the `embedding` column: `vector(1536)`. -/
def embeddingDim : Nat := 1536

/-- The database state: both tables plus the SERIAL id counters. -/
structure Db where
  opinions : List OpinionRow
  nextOpinionId : Nat
  embeddings : List EmbeddingRow
  nextEmbeddingId : Nat
deriving DecidableEq, Repr

/-- Errors raised by the write operations, mirroring PostgreSQL error classes. -/
inductive DbError where
  | validationError
  | uniqueViolation
  | foreignKeyViolation
  | dimensionMismatch
  | notFound
deriving DecidableEq, Repr

/-! ## The trigger `update_opinion_search_vector`

`schema.sql` lines 69-78: the trigger function sets
`NEW.search_vector := setweight(to_tsvector(coalesce(NEW.case_name,'')),'A') ||
setweight(to_tsvector(coalesce(NEW.summary,'')),'B') ||
setweight(to_tsvector(coalesce(NEW.opinion_text,'')),'C')`. -/

/-- The tsvector the trigger computes from a row's own three text fields. -/
def svOf (r : OpinionRow) : TSVec :=
  setweight (to_tsvector (coalesce r.case_name "")) TsWeight.A ++
  setweight (to_tsvector (coalesce r.summary "")) TsWeight.B ++
  setweight (to_tsvector (coalesce r.opinion_text "")) TsWeight.C

/-- The trigger function body: overwrite `NEW.search_vector` with the weighted
concatenation of the three text fields. -/
def update_opinion_search_vector (r : OpinionRow) : OpinionRow :=
  { r with search_vector := svOf r }

/-! ## Write operations on `case_opinions`

`trg_opinion_search_vector` (`schema.sql` lines 80-85) is
`BEFORE INSERT OR UPDATE OF case_name, summary, opinion_text`: it fires on
every INSERT, and on an UPDATE exactly when the statement's SET list mentions
one of those three columns. -/

/-- The values an INSERT supplies.  `search_vector` may be supplied by the
caller but is always overwritten by the BEFORE INSERT trigger. -/
structure OpinionInput where
  source : String
  source_id : Option String
  case_name : Option String
  court : Option String
  summary : Option String
  opinion_text : Option String
  search_vector : Option TSVec
deriving DecidableEq, Repr

/-- An UPDATE statement's SET list over the trigger-relevant columns.  An
outer `none` means the column is absent from the SET list; `some v` assigns
`v` (for nullable columns `v` itself is an `Option`). -/
structure OpinionUpdate where
  case_name : Option (Option String)
  summary : Option (Option String)
  opinion_text : Option (Option String)
  search_vector : Option TSVec
deriving DecidableEq, Repr

/-- Whether `trg_opinion_search_vector` fires for this UPDATE: true iff the
SET list mentions `case_name`, `summary` or `opinion_text`. -/
def triggerFires (u : OpinionUpdate) : Bool :=
  u.case_name.isSome || u.summary.isSome || u.opinion_text.isSome

/-- Apply the SET list to a row (before any trigger runs). -/
def applySet (r : OpinionRow) (u : OpinionUpdate) : OpinionRow :=
  { r with
    case_name := u.case_name.getD r.case_name,
    summary := u.summary.getD r.summary,
    opinion_text := u.opinion_text.getD r.opinion_text,
    search_vector := u.search_vector.getD r.search_vector }

/-- Is some stored row already using this `source_id`?  (`UNIQUE` permits any
number of NULLs, so only present ids are checked.) -/
def sourceIdTaken (db : Db) (sid : String) : Bool :=
  db.opinions.any (fun r => r.source_id = some sid)

/-- Would this INSERT violate the UNIQUE constraint on `source_id`? -/
def dupSourceId (db : Db) (inp : OpinionInput) : Bool :=
  match inp.source_id with
  | some sid => sourceIdTaken db sid
  | none => false

/-- The row an INSERT stores: the caller's values, passed through the BEFORE
INSERT trigger, with the next SERIAL id. -/
def newOpinionRow (db : Db) (inp : OpinionInput) (cn ct : String) : OpinionRow :=
  update_opinion_search_vector
    { id := db.nextOpinionId,
      source := inp.source,
      source_id := inp.source_id,
      case_name := some cn,
      court := some ct,
      summary := inp.summary,
      opinion_text := inp.opinion_text,
      search_vector := (inp.search_vector.getD []) }

/-- INSERT into `case_opinions`: check the NOT NULL constraints on `case_name`
and `court`, check the single-column UNIQUE constraint on `source_id`, then
store the row produced by the BEFORE INSERT trigger (which overwrites any
caller-supplied `search_vector`). -/
def insertOpinion (db : Db) (inp : OpinionInput) : Except DbError Db :=
  match inp.case_name, inp.court with
  | some cn, some ct =>
    if dupSourceId db inp then .error .uniqueViolation
    else
      .ok { db with opinions := db.opinions ++ [newOpinionRow db inp cn ct],
                    nextOpinionId := db.nextOpinionId + 1 }
  | _, _ => .error .validationError

/-- The per-row effect of an UPDATE targeting id `i`: apply the SET list and
re-run the trigger when it fires; other rows are untouched. -/
def updRow (u : OpinionUpdate) (i : Nat) (r : OpinionRow) : OpinionRow :=
  if r.id = i then
    if triggerFires u then update_opinion_search_vector (applySet r u)
    else applySet r u
  else r

/-- UPDATE of the row with id `i`: apply the SET list, re-running the trigger
exactly when the SET list mentions one of the three indexed text columns.
Setting `case_name` to NULL violates its NOT NULL constraint. -/
def updateOpinion (db : Db) (i : Nat) (u : OpinionUpdate) : Except DbError Db :=
  if u.case_name = some none then .error .validationError
  else if db.opinions.any (fun r => r.id = i) then
    .ok { db with opinions := db.opinions.map (updRow u i) }
  else .error .notFound

/-- DELETE of the opinion with id `i`; `case_embeddings.opinion_id` is
`REFERENCES case_opinions(id) ON DELETE CASCADE`, so every embedding row of
that opinion is removed in the same statement. -/
def deleteOpinion (db : Db) (i : Nat) : Except DbError Db :=
  if db.opinions.any (fun r => r.id = i) then
    .ok { db with
          opinions := db.opinions.filter (fun r => r.id ≠ i),
          embeddings := db.embeddings.filter (fun e => e.opinion_id ≠ i) }
  else .error .notFound

/-- The stored row matching an external identity, if any.

Modelled from the spec: the ingestion upsert keyed on the external identity
pair is described in spec section 4.1 but its code is not under `src/`; only
the schema's constraints are.  The spec keys the lookup on
`(source, source-native id)`. -/
def findByExternalId (db : Db) (src : String) (sid : String) : Option OpinionRow :=
  db.opinions.find? (fun r => decide (r.source = src ∧ r.source_id = some sid))

/-- The per-row effect of the upsert's UPDATE branch on the matched row `rid`:
replace the mutable fields and re-run the trigger (the UPDATE mentions
`case_name`, `summary` and `opinion_text`, so `trg_opinion_search_vector`
fires). -/
def upsRow (inp : OpinionInput) (cn ct : String) (rid : Nat) (r : OpinionRow) :
    OpinionRow :=
  if r.id = rid then
    update_opinion_search_vector
      { r with case_name := some cn,
               court := some ct,
               summary := inp.summary,
               opinion_text := inp.opinion_text }
  else r

/-- Modelled from the spec: `OpinionStore.upsert` (spec section 4.1) — the
ingestion write path, whose code is not under `src/`.  If a row with the same
`(source, source-native id)` exists, replace the mutable fields preserving the
internal id (the UPDATE mentions the indexed text columns, so the trigger
fires); otherwise INSERT, subject to the schema's constraints. -/
def upsertOpinion (db : Db) (inp : OpinionInput) : Except DbError Db :=
  match inp.source_id with
  | some sid =>
    match findByExternalId db inp.source sid with
    | some r0 =>
      match inp.case_name, inp.court with
      | some cn, some ct =>
        .ok { db with opinions := db.opinions.map (upsRow inp cn ct r0.id) }
      | _, _ => .error .validationError
    | none => insertOpinion db inp
  | none => insertOpinion db inp

/-! ## Write operations on `case_embeddings` -/

/-- The values a chunk write supplies. -/
structure EmbeddingInput where
  opinion_id : Nat
  model : String
  chunk_index : Nat
  chunk_text : Option String
  embedding : List Int
deriving DecidableEq, Repr

/-- Does `e` occupy the key `(opinion_id, model, chunk_index)` of `inp`? -/
def sameEmbKey (inp : EmbeddingInput) (e : EmbeddingRow) : Bool :=
  decide (e.opinion_id = inp.opinion_id ∧ e.model = inp.model ∧
          e.chunk_index = inp.chunk_index)

/-- The row a chunk INSERT stores, with the next SERIAL id. -/
def newEmbRow (db : Db) (inp : EmbeddingInput) : EmbeddingRow :=
  { id := db.nextEmbeddingId,
    opinion_id := inp.opinion_id,
    model := inp.model,
    chunk_index := inp.chunk_index,
    chunk_text := inp.chunk_text,
    embedding := inp.embedding }

/-- INSERT into `case_embeddings`: `pgvector` checks the declared dimension,
the foreign key to `case_opinions(id)` is checked, and
`UNIQUE(opinion_id, model, chunk_index)` rejects a duplicate key. -/
def insertEmbedding (db : Db) (inp : EmbeddingInput) : Except DbError Db :=
  if inp.embedding.length ≠ embeddingDim then .error .dimensionMismatch
  else if ¬ db.opinions.any (fun r => r.id = inp.opinion_id) then
    .error .foreignKeyViolation
  else if db.embeddings.any (sameEmbKey inp) then .error .uniqueViolation
  else
    .ok { db with
          embeddings := db.embeddings ++ [newEmbRow db inp],
          nextEmbeddingId := db.nextEmbeddingId + 1 }

/-- The per-row effect of the embedding upsert's conflict branch: overwrite
the text and vector of the row occupying the key, leave the rest alone. -/
def owEmb (inp : EmbeddingInput) (e : EmbeddingRow) : EmbeddingRow :=
  if sameEmbKey inp e then
    { e with chunk_text := inp.chunk_text, embedding := inp.embedding }
  else e

/-- Modelled from the spec: the embedding upsert of `embed_and_store` (spec
section 4.3) — the pipeline code is not under `src/`, only the schema's
`UNIQUE(opinion_id, model, chunk_index)` constraint is.  On a key conflict the
existing row's text and vector are overwritten in place (spec: "re-embedding
the same chunk with the same model must overwrite, not duplicate");
otherwise the chunk is inserted. -/
def upsertEmbedding (db : Db) (inp : EmbeddingInput) : Except DbError Db :=
  if db.embeddings.any (sameEmbKey inp) then
    if inp.embedding.length ≠ embeddingDim then .error .dimensionMismatch
    else
      .ok { db with embeddings := db.embeddings.map (owEmb inp) }
  else insertEmbedding db inp

/-! ## Model of `ChatWidget.sendMessage`

`ChatWidget.tsx`: the component state relevant to `sendMessage` is
`messages`, `input`, `isLoading` and `sessionId`.  `sendMessage` computes
`text = input.trim()`, returns immediately when `!text || !sessionId ||
isLoading`, and otherwise appends one user message (with a fresh id and the
current time), clears the input, sets `isLoading`, and only then issues the
POST to `/message` with body `(session_id, message: text)`.  We model the
synchronous prefix up to the point the request is issued: the function
returns the updated state together with the request sent, if any.  The state
fields touched only after the response arrives (`caseType`,
`readyForReport`, `report`) are omitted. -/

/-- The role of a chat message (`Message.role` in `types.ts`). -/
inductive ChatRole where
  | user
  | assistant
deriving DecidableEq, Repr

/-- A chat message as held in the `messages` state array. -/
structure ChatMessage where
  id : String
  role : ChatRole
  content : String
  timestamp : Nat
deriving DecidableEq, Repr

/-- The `ChatWidget` state read and written by `sendMessage`. -/
structure ChatState where
  messages : List ChatMessage
  input : String
  isLoading : Bool
  sessionId : Option String
deriving DecidableEq, Repr

/-- Model of JavaScript `String.prototype.trim`: drop whitespace from both
ends of the string. -/
def jsTrim (s : String) : String :=
  String.mk (((s.data.dropWhile Char.isWhitespace).reverse.dropWhile
    Char.isWhitespace).reverse)

/-- The body of the POST request `sendMessage` issues. -/
structure ChatRequest where
  session_id : String
  message : String
deriving DecidableEq, Repr

/-- The synchronous prefix of `sendMessage`: guard, append the user message,
clear the input, mark loading, and issue the request.  `freshId` stands for
`crypto.randomUUID()` and `now` for `Date.now()`, both environment inputs. -/
def sendMessage (s : ChatState) (freshId : String) (now : Nat) :
    ChatState × Option ChatRequest :=
  if jsTrim s.input = "" then (s, none)
  else
    match s.sessionId with
    | none => (s, none)
    | some sid =>
      if s.isLoading then (s, none)
      else
        ({ s with
            messages := s.messages ++
              [{ id := freshId, role := ChatRole.user,
                 content := jsTrim s.input, timestamp := now }],
            input := "",
            isLoading := true },
         some { session_id := sid, message := jsTrim s.input })

/-! ## Invariants of the database state -/

/-- NOT NULL on `case_name` and `court`: every stored opinion has both. -/
def opinionsWellFormed (db : Db) : Prop :=
  ∀ r ∈ db.opinions, r.case_name.isSome ∧ r.court.isSome

/-- The single-column UNIQUE on `source_id`: two stored rows sharing a present
`source_id` are the same row. -/
def sourceIdsUnique (db : Db) : Prop :=
  ∀ r1 ∈ db.opinions, ∀ r2 ∈ db.opinions, ∀ sid : String,
    r1.source_id = some sid → r2.source_id = some sid → r1 = r2

/-- Internal ids are pairwise distinct among stored opinions. -/
def opinionIdsUnique (db : Db) : Prop :=
  ∀ r1 ∈ db.opinions, ∀ r2 ∈ db.opinions, r1.id = r2.id → r1 = r2

/-- The SERIAL counter is ahead of every stored opinion id. -/
def opinionIdsFresh (db : Db) : Prop :=
  ∀ r ∈ db.opinions, r.id < db.nextOpinionId

/-- The key of an embedding row under `UNIQUE(opinion_id, model, chunk_index)`. -/
def embKey (e : EmbeddingRow) : Nat × String × Nat :=
  (e.opinion_id, e.model, e.chunk_index)

/-- `UNIQUE(opinion_id, model, chunk_index)`: two stored embedding rows with
the same key are the same row. -/
def embKeysUnique (db : Db) : Prop :=
  ∀ e1 ∈ db.embeddings, ∀ e2 ∈ db.embeddings, embKey e1 = embKey e2 → e1 = e2

/-- Every stored embedding vector has the declared dimension `vector(1536)`. -/
def embDimsOk (db : Db) : Prop :=
  ∀ e ∈ db.embeddings, e.embedding.length = embeddingDim

/-! ## Concrete instances (used by the witnesses below) -/

/-- The empty database. -/
def db0 : Db := { opinions := [], nextOpinionId := 1, embeddings := [], nextEmbeddingId := 1 }

/-- A fully-populated ingestion input. -/
def inpSmith : OpinionInput :=
  { source := "courtlistener", source_id := some "cl-1001",
    case_name := some "Smith v. State", court := some "texcrimapp",
    summary := none, opinion_text := some "field sobriety test",
    search_vector := none }

/-- The row `inpSmith` stores into the empty database. -/
def smithRow : OpinionRow := newOpinionRow db0 inpSmith "Smith v. State" "texcrimapp"

/-- The database after inserting `inpSmith`. -/
def smithDb : Db :=
  { opinions := [smithRow], nextOpinionId := 2, embeddings := [], nextEmbeddingId := 1 }

/-- An UPDATE whose SET list holds only `search_vector` — the statement the
trigger does not react to. -/
def svBypass : OpinionUpdate :=
  { case_name := none, summary := none, opinion_text := none,
    search_vector := some [("hacked", TsWeight.A)] }

/-- An UPDATE with an empty effective SET list over the modelled columns. -/
def noopUpdate : OpinionUpdate :=
  { case_name := none, summary := none, opinion_text := none,
    search_vector := none }

/-- `smithRow` after the bypassing UPDATE. -/
def smithHackedRow : OpinionRow :=
  { smithRow with search_vector := [("hacked", TsWeight.A)] }

/-- The database after the bypassing UPDATE. -/
def smithHackedDb : Db := { smithDb with opinions := [smithHackedRow] }

/-- A first embedding chunk for `smithRow` under the small model. -/
def embRowA : EmbeddingRow :=
  { id := 1, opinion_id := 1, model := "text-embedding-3-small",
    chunk_index := 0, chunk_text := some "field sobriety test",
    embedding := List.replicate 1536 0 }

/-- The database holding `smithRow` and its one embedding chunk. -/
def embDb1 : Db :=
  { opinions := [smithRow], nextOpinionId := 2,
    embeddings := [embRowA], nextEmbeddingId := 2 }

/-- A re-embedding of the same chunk of the same opinion with the same
model, carrying a new vector. -/
def embInpA2 : EmbeddingInput :=
  { opinion_id := 1, model := "text-embedding-3-small", chunk_index := 0,
    chunk_text := some "field sobriety test, revised",
    embedding := List.replicate 1536 1 }

/-- `embRowA` after the overwriting re-embedding. -/
def embRowA2 : EmbeddingRow :=
  { embRowA with chunk_text := some "field sobriety test, revised",
                 embedding := List.replicate 1536 1 }

/-- The database after the overwriting re-embedding. -/
def embDb2 : Db := { embDb1 with embeddings := [embRowA2] }

/-- The database after `deleteOpinion embDb1 1`. -/
def delDb : Db :=
  { opinions := [], nextOpinionId := 2, embeddings := [], nextEmbeddingId := 2 }

/-- An ingestion input with no case name. -/
def inpNoName : OpinionInput :=
  { source := "cap", source_id := none, case_name := none,
    court := some "texapp", summary := none, opinion_text := none,
    search_vector := none }

/-- A chunk of the same opinion at the next index under the same model. -/
def embRowC : EmbeddingRow :=
  { id := 2, opinion_id := 1, model := "text-embedding-3-small",
    chunk_index := 1, chunk_text := some "second chunk",
    embedding := List.replicate 1536 3 }

/-- A database with two chunks of the same model. -/
def embDbAC : Db :=
  { opinions := [smithRow], nextOpinionId := 2,
    embeddings := [embRowA, embRowC], nextEmbeddingId := 3 }

/-- A second source's record whose source-native id collides with
`inpSmith`'s even though the `(source, source_id)` pairs differ. -/
def inpCapDup : OpinionInput :=
  { source := "cap", source_id := some "cl-1001",
    case_name := some "Jones v. State", court := some "texapp",
    summary := none, opinion_text := none, search_vector := none }

/-- A record from another source with a fresh source-native id. -/
def inpJones : OpinionInput :=
  { source := "cap", source_id := some "cap-77",
    case_name := some "Jones v. State", court := some "texapp",
    summary := none, opinion_text := none, search_vector := none }

/-- The row `inpJones` stores into `smithDb`. -/
def jonesRow : OpinionRow := newOpinionRow smithDb inpJones "Jones v. State" "texapp"

/-- The database holding both records. -/
def smithJonesDb : Db :=
  { opinions := [smithRow, jonesRow], nextOpinionId := 3,
    embeddings := [], nextEmbeddingId := 1 }

/-- A widget state ready to send. -/
def chatReady : ChatState :=
  { messages := [], input := "  I got a DWI ticket  ",
    isLoading := false, sessionId := some "sess-1" }

/-- The same state while a request is in flight. -/
def chatBusy : ChatState := { chatReady with isLoading := true }

/-! ## Lemmas and claim theorems -/

theorem to_tsvector_empty : to_tsvector "" = [] := rfl

theorem trigger_search_vector (r : OpinionRow) :
    (update_opinion_search_vector r).search_vector = svOf r := rfl

theorem svOf_trigger (r : OpinionRow) :
    svOf (update_opinion_search_vector r) = svOf r := rfl

theorem insertOpinion_ok_elim {db : Db} {inp : OpinionInput} {db' : Db}
    (h : insertOpinion db inp = .ok db') :
    ∃ cn ct, inp.case_name = some cn ∧ inp.court = some ct ∧
      dupSourceId db inp = false ∧
      db' = { db with opinions := db.opinions ++ [newOpinionRow db inp cn ct],
                      nextOpinionId := db.nextOpinionId + 1 } := by
  cases hcn : inp.case_name with
  | none =>
    unfold insertOpinion at h
    rw [hcn] at h
    exact absurd h (by simp)
  | some cn =>
    cases hct : inp.court with
    | none =>
      unfold insertOpinion at h
      rw [hcn, hct] at h
      exact absurd h (by simp)
    | some ct =>
      unfold insertOpinion at h
      rw [hcn, hct] at h
      dsimp only at h
      by_cases hdup : dupSourceId db inp = true
      · rw [if_pos hdup] at h
        exact absurd h (by simp)
      · rw [if_neg hdup] at h
        refine ⟨cn, ct, rfl, rfl, by simpa using hdup, ?_⟩
        exact ((Except.ok.injEq _ _).mp h).symm

theorem updateOpinion_ok_elim {db : Db} {i : Nat} {u : OpinionUpdate} {db' : Db}
    (h : updateOpinion db i u = .ok db') :
    u.case_name ≠ some none ∧
      db' = { db with opinions := db.opinions.map (updRow u i) } := by
  unfold updateOpinion at h
  split at h
  next => exact absurd h (by simp)
  next hnull =>
    split at h
    next => exact ⟨hnull, ((Except.ok.injEq _ _).mp h).symm⟩
    next => exact absurd h (by simp)

theorem deleteOpinion_ok_elim {db : Db} {i : Nat} {db' : Db}
    (h : deleteOpinion db i = .ok db') :
    db' = { db with opinions := db.opinions.filter (fun r => r.id ≠ i),
                    embeddings := db.embeddings.filter (fun e => e.opinion_id ≠ i) } := by
  unfold deleteOpinion at h
  split at h
  next => exact ((Except.ok.injEq _ _).mp h).symm
  next => exact absurd h (by simp)

theorem findByExternalId_some {db : Db} {src sid : String} {r0 : OpinionRow}
    (h : findByExternalId db src sid = some r0) :
    r0 ∈ db.opinions ∧ r0.source = src ∧ r0.source_id = some sid := by
  unfold findByExternalId at h
  have hp := List.find?_some h
  have hp' := of_decide_eq_true hp
  exact ⟨List.mem_of_find?_eq_some h, hp'.1, hp'.2⟩

theorem upsertOpinion_ok_elim {db : Db} {inp : OpinionInput} {db' : Db}
    (h : upsertOpinion db inp = .ok db') :
    (∃ sid r0 cn ct, inp.source_id = some sid ∧
       findByExternalId db inp.source sid = some r0 ∧
       inp.case_name = some cn ∧ inp.court = some ct ∧
       db' = { db with opinions := db.opinions.map (upsRow inp cn ct r0.id) }) ∨
    insertOpinion db inp = .ok db' := by
  unfold upsertOpinion at h
  cases hsid : inp.source_id with
  | none => rw [hsid] at h; dsimp only at h; exact Or.inr h
  | some sid =>
    rw [hsid] at h; dsimp only at h
    cases hfind : findByExternalId db inp.source sid with
    | none => rw [hfind] at h; dsimp only at h; exact Or.inr h
    | some r0 =>
      rw [hfind] at h; dsimp only at h
      cases hcn : inp.case_name with
      | none => rw [hcn] at h; dsimp only at h; exact absurd h (by simp)
      | some cn =>
        cases hct : inp.court with
        | none => rw [hcn, hct] at h; dsimp only at h; exact absurd h (by simp)
        | some ct =>
          rw [hcn, hct] at h; dsimp only at h
          exact Or.inl ⟨sid, r0, cn, ct, rfl, hfind, rfl, rfl,
            ((Except.ok.injEq _ _).mp h).symm⟩

theorem insertEmbedding_ok_elim {db : Db} {inp : EmbeddingInput} {db' : Db}
    (h : insertEmbedding db inp = .ok db') :
    inp.embedding.length = embeddingDim ∧
      db.embeddings.any (sameEmbKey inp) = false ∧
      db' = { db with embeddings := db.embeddings ++ [newEmbRow db inp],
                      nextEmbeddingId := db.nextEmbeddingId + 1 } := by
  unfold insertEmbedding at h
  split at h
  next => exact absurd h (by simp)
  next hdim =>
    split at h
    next => exact absurd h (by simp)
    next hfk =>
      split at h
      next => exact absurd h (by simp)
      next hdup =>
        exact ⟨not_ne_iff.mp hdim, by simpa using hdup,
          ((Except.ok.injEq _ _).mp h).symm⟩

theorem upsertEmbedding_ok_elim {db : Db} {inp : EmbeddingInput} {db' : Db}
    (h : upsertEmbedding db inp = .ok db') :
    (db.embeddings.any (sameEmbKey inp) = true ∧
       inp.embedding.length = embeddingDim ∧
       db' = { db with embeddings := db.embeddings.map (owEmb inp) }) ∨
    (db.embeddings.any (sameEmbKey inp) = false ∧
       insertEmbedding db inp = .ok db') := by
  unfold upsertEmbedding at h
  split at h
  next hany =>
    split at h
    next => exact absurd h (by simp)
    next hdim =>
      exact Or.inl ⟨hany, not_ne_iff.mp hdim, ((Except.ok.injEq _ _).mp h).symm⟩
  next hany => exact Or.inr ⟨by simpa using hany, h⟩

theorem sameEmbKey_iff (inp : EmbeddingInput) (e : EmbeddingRow) :
    sameEmbKey inp e = true ↔
      embKey e = (inp.opinion_id, inp.model, inp.chunk_index) := by
  unfold sameEmbKey embKey
  simp [Prod.ext_iff]

theorem embKey_owEmb (inp : EmbeddingInput) (e : EmbeddingRow) :
    embKey (owEmb inp e) = embKey e := by
  unfold owEmb
  split <;> rfl

theorem updRow_id (u : OpinionUpdate) (i : Nat) (r : OpinionRow) :
    (updRow u i r).id = r.id := by
  unfold updRow
  split
  · split <;> rfl
  · rfl

theorem upsRow_id (inp : OpinionInput) (cn ct : String) (rid : Nat)
    (r : OpinionRow) : (upsRow inp cn ct rid r).id = r.id := by
  unfold upsRow
  split <;> rfl

theorem upsRow_source_id (inp : OpinionInput) (cn ct : String) (rid : Nat)
    (r : OpinionRow) : (upsRow inp cn ct rid r).source_id = r.source_id := by
  unfold upsRow
  split <;> rfl

theorem updRow_source_id (u : OpinionUpdate) (i : Nat) (r : OpinionRow) :
    (updRow u i r).source_id = r.source_id := by
  unfold updRow
  split
  · split <;> rfl
  · rfl

theorem insert_rows_consistent {db : Db} {inp : OpinionInput} {db' : Db}
    (h : insertOpinion db inp = .ok db') :
    ∀ r ∈ db'.opinions, r ∈ db.opinions ∨ r.search_vector = svOf r := by
  obtain ⟨cn, ct, hcn, hct, hdup, rfl⟩ := insertOpinion_ok_elim h
  intro r hr
  rcases List.mem_append.mp hr with hold | hnew
  · exact Or.inl hold
  · right
    have hre := List.mem_singleton.mp hnew
    subst hre
    unfold newOpinionRow
    rw [trigger_search_vector, svOf_trigger]

theorem update_fires_consistent {db : Db} {i : Nat} {u : OpinionUpdate}
    {db' : Db} (hf : triggerFires u = true) (h : updateOpinion db i u = .ok db') :
    ∀ r ∈ db'.opinions, r ∈ db.opinions ∨ r.search_vector = svOf r := by
  obtain ⟨-, rfl⟩ := updateOpinion_ok_elim h
  intro r hr
  obtain ⟨x, hx, rfl⟩ := List.mem_map.mp hr
  unfold updRow
  by_cases hid : x.id = i
  · rw [if_pos hid, if_pos hf]
    right
    rw [trigger_search_vector, svOf_trigger]
  · rw [if_neg hid]
    exact Or.inl hx

theorem triggerFires_false_elim {u : OpinionUpdate}
    (hf : triggerFires u = false) :
    u.case_name = none ∧ u.summary = none ∧ u.opinion_text = none := by
  unfold triggerFires at hf
  refine ⟨?_, ?_, ?_⟩
  · cases hone : u.case_name <;> simp [hone] at hf ⊢
  · cases hone : u.summary <;> simp [hone] at hf ⊢
  · cases hone : u.opinion_text <;> simp [hone] at hf ⊢

theorem update_nofire_shape {db : Db} {i : Nat} {u : OpinionUpdate} {db' : Db}
    (hf : triggerFires u = false) (h : updateOpinion db i u = .ok db') :
    ∀ r' ∈ db'.opinions, ∃ r ∈ db.opinions,
      r'.case_name = r.case_name ∧ r'.summary = r.summary ∧
      r'.opinion_text = r.opinion_text ∧
      (r'.search_vector = r.search_vector ∨
       r'.search_vector = u.search_vector.getD r.search_vector) := by
  obtain ⟨-, rfl⟩ := updateOpinion_ok_elim h
  intro r' hr'
  obtain ⟨x, hx, rfl⟩ := List.mem_map.mp hr'
  refine ⟨x, hx, ?_⟩
  obtain ⟨hucn, husm, hutx⟩ := triggerFires_false_elim hf
  unfold updRow
  by_cases hid : x.id = i
  · rw [if_pos hid, if_neg (by simp [hf])]
    simp [applySet, hucn, husm, hutx]
  · rw [if_neg hid]
    simp

theorem insert_preserves_wf {db : Db} {inp : OpinionInput} {db' : Db}
    (hwf : opinionsWellFormed db) (h : insertOpinion db inp = .ok db') :
    opinionsWellFormed db' := by
  obtain ⟨cn, ct, hcn, hct, -, rfl⟩ := insertOpinion_ok_elim h
  intro r hr
  rcases List.mem_append.mp hr with hold | hnew
  · exact hwf r hold
  · have hre := List.mem_singleton.mp hnew
    subst hre
    exact ⟨rfl, rfl⟩

theorem update_preserves_wf {db : Db} {i : Nat} {u : OpinionUpdate} {db' : Db}
    (hwf : opinionsWellFormed db) (h : updateOpinion db i u = .ok db') :
    opinionsWellFormed db' := by
  obtain ⟨hnull, rfl⟩ := updateOpinion_ok_elim h
  intro r hr
  obtain ⟨x, hx, rfl⟩ := List.mem_map.mp hr
  obtain ⟨hx1, hx2⟩ := hwf x hx
  unfold updRow
  by_cases hid : x.id = i
  · rw [if_pos hid]
    have hcase : ((applySet x u).case_name.isSome ∧ (applySet x u).court.isSome) := by
      constructor
      · cases hone : u.case_name with
        | none => simpa [applySet, hone] using hx1
        | some v =>
          cases v with
          | none => exact absurd hone hnull
          | some s => simp [applySet, hone]
      · simpa [applySet] using hx2
    by_cases hfi : triggerFires u = true
    · rw [if_pos hfi]
      exact hcase
    · rw [if_neg hfi]
      exact hcase
  · rw [if_neg hid]
    exact ⟨hx1, hx2⟩

theorem upsert_preserves_wf {db : Db} {inp : OpinionInput} {db' : Db}
    (hwf : opinionsWellFormed db) (h : upsertOpinion db inp = .ok db') :
    opinionsWellFormed db' := by
  rcases upsertOpinion_ok_elim h with ⟨sid, r0, cn, ct, -, -, -, -, rfl⟩ | hins
  · intro r hr
    obtain ⟨x, hx, rfl⟩ := List.mem_map.mp hr
    unfold upsRow
    by_cases hid : x.id = r0.id
    · rw [if_pos hid]
      exact ⟨rfl, rfl⟩
    · rw [if_neg hid]
      exact hwf x hx
  · exact insert_preserves_wf hwf hins

theorem sourceIdTaken_false_elim {db : Db} {sid : String}
    (h : sourceIdTaken db sid = false) :
    ∀ r ∈ db.opinions, r.source_id ≠ some sid := by
  unfold sourceIdTaken at h
  intro r hr hcontra
  have := List.any_eq_false.mp h r hr
  exact this (decide_eq_true hcontra)

theorem newOpinionRow_source_id (db : Db) (inp : OpinionInput) (cn ct : String) :
    (newOpinionRow db inp cn ct).source_id = inp.source_id := rfl

theorem newOpinionRow_id (db : Db) (inp : OpinionInput) (cn ct : String) :
    (newOpinionRow db inp cn ct).id = db.nextOpinionId := rfl

theorem insert_preserves_sourceIdsUnique {db : Db} {inp : OpinionInput}
    {db' : Db} (hu : sourceIdsUnique db) (h : insertOpinion db inp = .ok db') :
    sourceIdsUnique db' := by
  obtain ⟨cn, ct, hcn, hct, hdup, rfl⟩ := insertOpinion_ok_elim h
  intro r1 h1 r2 h2 sid hs1 hs2
  rcases List.mem_append.mp h1 with ho1 | hn1 <;>
    rcases List.mem_append.mp h2 with ho2 | hn2
  · exact hu r1 ho1 r2 ho2 sid hs1 hs2
  · exfalso
    have hre := List.mem_singleton.mp hn2
    subst hre
    rw [newOpinionRow_source_id] at hs2
    unfold dupSourceId at hdup
    rw [hs2] at hdup
    exact sourceIdTaken_false_elim hdup r1 ho1 hs1
  · exfalso
    have hre := List.mem_singleton.mp hn1
    subst hre
    rw [newOpinionRow_source_id] at hs1
    unfold dupSourceId at hdup
    rw [hs1] at hdup
    exact sourceIdTaken_false_elim hdup r2 ho2 hs2
  · rw [List.mem_singleton.mp hn1, List.mem_singleton.mp hn2]

theorem insert_preserves_idInv {db : Db} {inp : OpinionInput} {db' : Db}
    (hfr : opinionIdsFresh db) (hun : opinionIdsUnique db)
    (h : insertOpinion db inp = .ok db') :
    opinionIdsFresh db' ∧ opinionIdsUnique db' := by
  obtain ⟨cn, ct, hcn, hct, hdup, rfl⟩ := insertOpinion_ok_elim h
  constructor
  · intro r hr
    rcases List.mem_append.mp hr with ho | hn
    · exact Nat.lt_succ_of_lt (hfr r ho)
    · have hre := List.mem_singleton.mp hn
      subst hre
      exact Nat.lt_succ_self _
  · intro r1 h1 r2 h2 hid
    rcases List.mem_append.mp h1 with ho1 | hn1 <;>
      rcases List.mem_append.mp h2 with ho2 | hn2
    · exact hun r1 ho1 r2 ho2 hid
    · exfalso
      have hre := List.mem_singleton.mp hn2
      subst hre
      rw [newOpinionRow_id] at hid
      exact Nat.lt_irrefl _ (hid ▸ hfr r1 ho1)
    · exfalso
      have hre := List.mem_singleton.mp hn1
      subst hre
      rw [newOpinionRow_id] at hid
      exact Nat.lt_irrefl _ (hid ▸ hfr r2 ho2)
    · rw [List.mem_singleton.mp hn1, List.mem_singleton.mp hn2]

theorem upsert_preserves_idInv {db : Db} {inp : OpinionInput} {db' : Db}
    (hfr : opinionIdsFresh db) (hun : opinionIdsUnique db)
    (h : upsertOpinion db inp = .ok db') :
    opinionIdsFresh db' ∧ opinionIdsUnique db' := by
  rcases upsertOpinion_ok_elim h with ⟨sid, r0, cn, ct, -, -, -, -, rfl⟩ | hins
  · constructor
    · intro r hr
      obtain ⟨x, hx, rfl⟩ := List.mem_map.mp hr
      rw [upsRow_id]
      exact hfr x hx
    · intro r1 h1 r2 h2 hid
      obtain ⟨x1, hx1, rfl⟩ := List.mem_map.mp h1
      obtain ⟨x2, hx2, rfl⟩ := List.mem_map.mp h2
      rw [upsRow_id, upsRow_id] at hid
      rw [hun x1 hx1 x2 hx2 hid]
  · exact insert_preserves_idInv hfr hun hins

theorem upsert_sid_present {db : Db} {inp : OpinionInput} {db' : Db}
    {sid : String} (h : upsertOpinion db inp = .ok db')
    (hs : inp.source_id = some sid) :
    ∃ r ∈ db'.opinions, r.source_id = some sid := by
  rcases upsertOpinion_ok_elim h with ⟨sid', r0, cn, ct, hsid', hfind, -, -, rfl⟩ | hins
  · have hss : sid' = sid := by
      rw [hs] at hsid'
      exact (Option.some_inj.mp hsid').symm
    obtain ⟨hmem, hsrc, hsid0⟩ := findByExternalId_some hfind
    refine ⟨upsRow inp cn ct r0.id r0, List.mem_map_of_mem _ hmem, ?_⟩
    rw [upsRow_source_id, hsid0, hss]
  · obtain ⟨cn, ct, hcn, hct, hdup, rfl⟩ := insertOpinion_ok_elim hins
    refine ⟨newOpinionRow db inp cn ct,
      List.mem_append_right _ (List.mem_singleton_self _), ?_⟩
    rw [newOpinionRow_source_id]
    exact hs

theorem upsert_preserves_row_ids {db : Db} {inp : OpinionInput} {db' : Db}
    (h : upsertOpinion db inp = .ok db') :
    ∀ r ∈ db.opinions, ∃ r' ∈ db'.opinions,
      r'.id = r.id ∧ r'.source_id = r.source_id := by
  rcases upsertOpinion_ok_elim h with ⟨sid, r0, cn, ct, -, -, -, -, rfl⟩ | hins
  · intro r hr
    exact ⟨upsRow inp cn ct r0.id r, List.mem_map_of_mem _ hr,
      upsRow_id _ _ _ _ _, upsRow_source_id _ _ _ _ _⟩
  · obtain ⟨cn, ct, hcn, hct, hdup, rfl⟩ := insertOpinion_ok_elim hins
    intro r hr
    exact ⟨r, List.mem_append_left _ hr, rfl, rfl⟩

theorem owEmb_of_key {inp : EmbeddingInput} {e : EmbeddingRow}
    (hk : sameEmbKey inp e = true) :
    owEmb inp e = { e with chunk_text := inp.chunk_text,
                           embedding := inp.embedding } := by
  unfold owEmb
  rw [if_pos hk]

theorem owEmb_of_not_key {inp : EmbeddingInput} {e : EmbeddingRow}
    (hk : sameEmbKey inp e = false) : owEmb inp e = e := by
  unfold owEmb
  rw [if_neg (by simp [hk])]

theorem newEmbRow_key (db : Db) (inp : EmbeddingInput) :
    embKey (newEmbRow db inp) = (inp.opinion_id, inp.model, inp.chunk_index) :=
  rfl

theorem sameEmbKey_false_of_ne {inp : EmbeddingInput} {e : EmbeddingRow}
    (hne : embKey e ≠ (inp.opinion_id, inp.model, inp.chunk_index)) :
    sameEmbKey inp e = false := by
  cases hsk : sameEmbKey inp e
  · rfl
  · exact absurd ((sameEmbKey_iff inp e).mp hsk) hne

theorem insert_preserves_embKeysUnique {db : Db} {inp : EmbeddingInput}
    {db' : Db} (hu : embKeysUnique db) (h : insertEmbedding db inp = .ok db') :
    embKeysUnique db' := by
  obtain ⟨hdim, hnodup, rfl⟩ := insertEmbedding_ok_elim h
  intro e1 h1 e2 h2 hk
  rcases List.mem_append.mp h1 with ho1 | hn1 <;>
    rcases List.mem_append.mp h2 with ho2 | hn2
  · exact hu e1 ho1 e2 ho2 hk
  · exfalso
    have hre := List.mem_singleton.mp hn2
    subst hre
    rw [newEmbRow_key] at hk
    have := List.any_eq_false.mp hnodup e1 ho1
    exact this ((sameEmbKey_iff inp e1).mpr hk)
  · exfalso
    have hre := List.mem_singleton.mp hn1
    subst hre
    rw [newEmbRow_key] at hk
    have := List.any_eq_false.mp hnodup e2 ho2
    exact this ((sameEmbKey_iff inp e2).mpr hk.symm)
  · rw [List.mem_singleton.mp hn1, List.mem_singleton.mp hn2]

theorem upsert_preserves_embKeysUnique {db : Db} {inp : EmbeddingInput}
    {db' : Db} (hu : embKeysUnique db) (h : upsertEmbedding db inp = .ok db') :
    embKeysUnique db' := by
  rcases upsertEmbedding_ok_elim h with ⟨hany, hdim, rfl⟩ | ⟨hany, hins⟩
  · intro e1 h1 e2 h2 hk
    obtain ⟨x1, hx1, rfl⟩ := List.mem_map.mp h1
    obtain ⟨x2, hx2, rfl⟩ := List.mem_map.mp h2
    rw [embKey_owEmb, embKey_owEmb] at hk
    rw [hu x1 hx1 x2 hx2 hk]
  · exact insert_preserves_embKeysUnique hu hins

theorem upsert_emb_stores_latest {db : Db} {inp : EmbeddingInput} {db' : Db}
    (h : upsertEmbedding db inp = .ok db') :
    ∃ e ∈ db'.embeddings,
      embKey e = (inp.opinion_id, inp.model, inp.chunk_index) ∧
      e.embedding = inp.embedding ∧ e.chunk_text = inp.chunk_text := by
  rcases upsertEmbedding_ok_elim h with ⟨hany, hdim, rfl⟩ | ⟨hany, hins⟩
  · obtain ⟨e0, he0, hkey⟩ := List.any_eq_true.mp hany
    refine ⟨owEmb inp e0, List.mem_map_of_mem _ he0, ?_, ?_, ?_⟩
    · rw [embKey_owEmb]
      exact (sameEmbKey_iff inp e0).mp hkey
    · rw [owEmb_of_key hkey]
    · rw [owEmb_of_key hkey]
  · obtain ⟨hdim, hnodup, rfl⟩ := insertEmbedding_ok_elim hins
    exact ⟨newEmbRow db inp,
      List.mem_append_right _ (List.mem_singleton_self _), rfl, rfl, rfl⟩

theorem upsert_emb_preserves_other_keys {db : Db} {inp : EmbeddingInput}
    {db' : Db} (h : upsertEmbedding db inp = .ok db') :
    ∀ e ∈ db.embeddings,
      embKey e ≠ (inp.opinion_id, inp.model, inp.chunk_index) →
      e ∈ db'.embeddings := by
  rcases upsertEmbedding_ok_elim h with ⟨hany, hdim, rfl⟩ | ⟨hany, hins⟩
  · intro e he hne
    have heq : owEmb inp e = e := owEmb_of_not_key (sameEmbKey_false_of_ne hne)
    rw [← heq]
    exact List.mem_map_of_mem _ he
  · obtain ⟨hdim, hnodup, rfl⟩ := insertEmbedding_ok_elim hins
    intro e he hne
    exact List.mem_append_left _ he

theorem insert_preserves_embDims {db : Db} {inp : EmbeddingInput} {db' : Db}
    (hd : embDimsOk db) (h : insertEmbedding db inp = .ok db') :
    embDimsOk db' := by
  obtain ⟨hdim, hnodup, rfl⟩ := insertEmbedding_ok_elim h
  intro e he
  rcases List.mem_append.mp he with ho | hn
  · exact hd e ho
  · have hre := List.mem_singleton.mp hn
    subst hre
    exact hdim

theorem upsert_preserves_embDims {db : Db} {inp : EmbeddingInput} {db' : Db}
    (hd : embDimsOk db) (h : upsertEmbedding db inp = .ok db') :
    embDimsOk db' := by
  rcases upsertEmbedding_ok_elim h with ⟨hany, hdim, rfl⟩ | ⟨hany, hins⟩
  · intro e he
    obtain ⟨x, hx, rfl⟩ := List.mem_map.mp he
    by_cases hk : sameEmbKey inp x = true
    · rw [owEmb_of_key hk]
      exact hdim
    · rw [owEmb_of_not_key (by simpa using hk)]
      exact hd x hx
  · exact insert_preserves_embDims hd hins

/-! ## Claims C1 and C2 -/

/-- Claim C1: on INSERT, and on UPDATE of `case_name`, `summary` or
`opinion_text`, the stored `search_vector` equals the concatenation of the
weighted tsvectors of the row's three text fields, case name at weight `A`,
summary at weight `B`, opinion text at weight `C`. -/
theorem search_vector_is_weighted_concat :
    (∀ db inp db', insertOpinion db inp = .ok db' →
      ∀ r ∈ db'.opinions, r ∈ db.opinions ∨
        r.search_vector =
          setweight (to_tsvector (coalesce r.case_name "")) TsWeight.A ++
          setweight (to_tsvector (coalesce r.summary "")) TsWeight.B ++
          setweight (to_tsvector (coalesce r.opinion_text "")) TsWeight.C) ∧
    (∀ db i u db', triggerFires u = true → updateOpinion db i u = .ok db' →
      ∀ r ∈ db'.opinions, r ∈ db.opinions ∨
        r.search_vector =
          setweight (to_tsvector (coalesce r.case_name "")) TsWeight.A ++
          setweight (to_tsvector (coalesce r.summary "")) TsWeight.B ++
          setweight (to_tsvector (coalesce r.opinion_text "")) TsWeight.C) := by
  constructor
  · intro db inp db' h r hr
    have := insert_rows_consistent h r hr
    simpa [svOf] using this
  · intro db i u db' hf h r hr
    have := update_fires_consistent hf h r hr
    simpa [svOf] using this

/-- Witness for C1: inserting `inpSmith` into the empty database stores a row
whose `search_vector` is the weighted concatenation of its fields. -/
theorem search_vector_is_weighted_concat_witness :
    smithRow ∈ db0.opinions ∨
      smithRow.search_vector =
        setweight (to_tsvector (coalesce smithRow.case_name "")) TsWeight.A ++
        setweight (to_tsvector (coalesce smithRow.summary "")) TsWeight.B ++
        setweight (to_tsvector (coalesce smithRow.opinion_text "")) TsWeight.C :=
  search_vector_is_weighted_concat.1 db0 inpSmith smithDb (by rfl) smithRow
    (by simp [smithDb])

/-- Counterexample to claim C2 as stated: an UPDATE whose SET list holds only
`search_vector` succeeds, stores the caller's value verbatim (the trigger
does not fire), and the stored value differs from the recomputed one — so
`search_vector` CAN be set directly by a caller through this write path. -/
theorem search_vector_direct_write_counterexample :
    updateOpinion smithDb 1 svBypass = Except.ok smithHackedDb ∧
    smithHackedRow ∈ smithHackedDb.opinions ∧
    smithHackedRow.search_vector ≠ svOf smithHackedRow := by
  refine ⟨by rfl, by simp [smithHackedDb], by decide⟩

/-- Claim C2 (amended): every INSERT recomputes `search_vector` (overriding
any caller-supplied value), and every UPDATE whose SET list mentions
`case_name`, `summary` or `opinion_text` — hence every update that changes
one of them — recomputes it synchronously in the same write; but an UPDATE
that touches none of the three indexed columns leaves the text fields
unchanged and stores the caller's `search_vector` assignment, if any,
verbatim (the single bypassing path). -/
theorem write_paths_reindex_amended :
    (∀ db inp db', insertOpinion db inp = .ok db' →
       ∀ r ∈ db'.opinions, r ∈ db.opinions ∨ r.search_vector = svOf r) ∧
    (∀ db i u db', triggerFires u = true → updateOpinion db i u = .ok db' →
       ∀ r ∈ db'.opinions, r ∈ db.opinions ∨ r.search_vector = svOf r) ∧
    (∀ db i u db', triggerFires u = false → updateOpinion db i u = .ok db' →
       ∀ r' ∈ db'.opinions, ∃ r ∈ db.opinions,
         r'.case_name = r.case_name ∧ r'.summary = r.summary ∧
         r'.opinion_text = r.opinion_text ∧
         (r'.search_vector = r.search_vector ∨
          r'.search_vector = u.search_vector.getD r.search_vector)) :=
  ⟨fun _ _ _ h => insert_rows_consistent h,
   fun _ _ _ _ hf h => update_fires_consistent hf h,
   fun _ _ _ _ hf h => update_nofire_shape hf h⟩

/-- Witness for the amended C2: the insert path recomputes the vector of the
stored `smithRow`. -/
theorem write_paths_reindex_amended_witness :
    smithRow ∈ db0.opinions ∨ smithRow.search_vector = svOf smithRow :=
  write_paths_reindex_amended.1 db0 inpSmith smithDb (by rfl) smithRow
    (by simp [smithDb])

/-! ## Claim C8 -/

/-- Claim C8: a NULL or empty `summary` (resp. `opinion_text`) contributes
nothing to the computed search vector — the trigger succeeds and the result
is exactly the weighted concatenation of the remaining fields. -/
theorem empty_fields_contribute_nothing (r : OpinionRow) :
    ((r.summary = none ∨ r.summary = some "") →
      (update_opinion_search_vector r).search_vector =
        setweight (to_tsvector (coalesce r.case_name "")) TsWeight.A ++
        setweight (to_tsvector (coalesce r.opinion_text "")) TsWeight.C) ∧
    ((r.opinion_text = none ∨ r.opinion_text = some "") →
      (update_opinion_search_vector r).search_vector =
        setweight (to_tsvector (coalesce r.case_name "")) TsWeight.A ++
        setweight (to_tsvector (coalesce r.summary "")) TsWeight.B) := by
  constructor
  · intro hs
    rw [trigger_search_vector]
    unfold svOf
    rcases hs with h | h <;>
      rw [h] <;> simp [coalesce, to_tsvector_empty, setweight]
  · intro ht
    rw [trigger_search_vector]
    unfold svOf
    rcases ht with h | h <;>
      rw [h] <;> simp [coalesce, to_tsvector_empty, setweight]

/-- Witness for C8: `smithRow` has no summary, and its search vector is the
weighted concatenation of case name and opinion text alone. -/
theorem empty_fields_contribute_nothing_witness :
    (update_opinion_search_vector smithRow).search_vector =
      setweight (to_tsvector (coalesce smithRow.case_name "")) TsWeight.A ++
      setweight (to_tsvector (coalesce smithRow.opinion_text "")) TsWeight.C :=
  (empty_fields_contribute_nothing smithRow).1 (Or.inl (by rfl))

/-! ## Claims C3, C4, C7 — the embedding table -/

/-- Claim C3: `(opinion_id, model, chunk_index)` is unique; upserting a chunk
preserves that invariant, leaves exactly the new text and vector at the
upserted key (overwrite, not duplicate), and keeps every row at any other
key — in particular chunks of the same opinion under other models. -/
theorem embedding_key_unique_upsert_overwrites (db : Db) (inp : EmbeddingInput)
    (db' : Db) (hu : embKeysUnique db) (h : upsertEmbedding db inp = .ok db') :
    embKeysUnique db' ∧
    (∃ e ∈ db'.embeddings,
       embKey e = (inp.opinion_id, inp.model, inp.chunk_index) ∧
       e.embedding = inp.embedding ∧ e.chunk_text = inp.chunk_text) ∧
    (∀ e ∈ db.embeddings,
       embKey e ≠ (inp.opinion_id, inp.model, inp.chunk_index) →
       e ∈ db'.embeddings) :=
  ⟨upsert_preserves_embKeysUnique hu h, upsert_emb_stores_latest h,
   upsert_emb_preserves_other_keys h⟩

/-- Witness for C3: re-embedding chunk 0 of opinion 1 with the same model
overwrites in place. -/
theorem embedding_key_unique_upsert_overwrites_witness :
    embKeysUnique embDb2 ∧
    (∃ e ∈ embDb2.embeddings,
       embKey e = (embInpA2.opinion_id, embInpA2.model, embInpA2.chunk_index) ∧
       e.embedding = embInpA2.embedding ∧ e.chunk_text = embInpA2.chunk_text) ∧
    (∀ e ∈ embDb1.embeddings,
       embKey e ≠ (embInpA2.opinion_id, embInpA2.model, embInpA2.chunk_index) →
       e ∈ embDb2.embeddings) :=
  embedding_key_unique_upsert_overwrites embDb1 embInpA2 embDb2
    (by intro e1 h1 e2 h2 _
        rw [List.mem_singleton.mp h1, List.mem_singleton.mp h2])
    (by rfl)

/-- Claim C4: deleting an opinion cascades — after a successful
`deleteOpinion db i`, no embedding row with `opinion_id = i` remains (and
the opinion itself is gone). -/
theorem delete_cascades_to_embeddings (db : Db) (i : Nat) (db' : Db)
    (h : deleteOpinion db i = .ok db') :
    (∀ e ∈ db'.embeddings, e.opinion_id ≠ i) ∧
    (∀ r ∈ db'.opinions, r.id ≠ i) := by
  obtain rfl := deleteOpinion_ok_elim h
  constructor
  · intro e he
    have hp := (List.mem_filter.mp he).2
    exact of_decide_eq_true hp
  · intro r hr
    have hp := (List.mem_filter.mp hr).2
    exact of_decide_eq_true hp

/-- Witness for C4: deleting opinion 1 removes its embedding chunk. -/
theorem delete_cascades_to_embeddings_witness :
    (∀ e ∈ delDb.embeddings, e.opinion_id ≠ 1) ∧
    (∀ r ∈ delDb.opinions, r.id ≠ 1) :=
  delete_cascades_to_embeddings embDb1 1 delDb (by rfl)

/-! ## Claim C6 -/

theorem insert_missing_required {db : Db} {inp : OpinionInput}
    (hmiss : inp.case_name = none ∨ inp.court = none) :
    insertOpinion db inp = .error .validationError := by
  unfold insertOpinion
  rcases hmiss with hcn | hct
  · rw [hcn]
  · rw [hct]
    cases hcn : inp.case_name <;> rfl

theorem upsert_missing_required {db : Db} {inp : OpinionInput}
    (hmiss : inp.case_name = none ∨ inp.court = none) :
    upsertOpinion db inp = .error .validationError := by
  unfold upsertOpinion
  cases hsid : inp.source_id with
  | none =>
    dsimp only
    exact insert_missing_required hmiss
  | some sid =>
    dsimp only
    cases hfind : findByExternalId db inp.source sid with
    | none =>
      dsimp only
      exact insert_missing_required hmiss
    | some r0 =>
      dsimp only
      rcases hmiss with hcn | hct
      · rw [hcn]
      · rw [hct]
        cases hcn : inp.case_name <;> rfl

/-- Claim C6: an opinion record missing its case name or court is rejected
with a validation error by both write paths and nothing is stored; and every
successful write preserves the invariant that stored rows carry a case name
and a court (never NULL). -/
theorem required_fields_validated :
    (∀ db inp, (inp.case_name = none ∨ inp.court = none) →
       insertOpinion db inp = .error .validationError ∧
       upsertOpinion db inp = .error .validationError) ∧
    (∀ db db' inp i u, opinionsWellFormed db →
       (insertOpinion db inp = .ok db' ∨ updateOpinion db i u = .ok db' ∨
        upsertOpinion db inp = .ok db') →
       opinionsWellFormed db') :=
  ⟨fun _ _ hmiss =>
     ⟨insert_missing_required hmiss, upsert_missing_required hmiss⟩,
   fun _ _ _ _ _ hwf hok =>
     Or.elim hok (insert_preserves_wf hwf)
       (fun h2 => h2.elim (update_preserves_wf hwf) (upsert_preserves_wf hwf))⟩

/-- Witness for C6: the nameless record is rejected by both write paths, and
the database produced by inserting `inpSmith` is well-formed. -/
theorem required_fields_validated_witness :
    (insertOpinion db0 inpNoName = .error .validationError ∧
     upsertOpinion db0 inpNoName = .error .validationError) ∧
    opinionsWellFormed smithDb :=
  ⟨required_fields_validated.1 db0 inpNoName (Or.inl (by rfl)),
   required_fields_validated.2 db0 smithDb inpSmith 0 noopUpdate
     (by intro r hr
         exact absurd hr (List.not_mem_nil r))
     (Or.inl (by rfl))⟩

/-! ## Claim C7 -/

/-- Claim C7: both chunk write paths enforce the declared dimension, so every
stored embedding vector has length 1536; hence any two chunks stored under
the same model have equal, fixed dimensionality. -/
theorem embedding_dimension_fixed :
    (∀ db inp db', embDimsOk db → insertEmbedding db inp = .ok db' →
       embDimsOk db') ∧
    (∀ db inp db', embDimsOk db → upsertEmbedding db inp = .ok db' →
       embDimsOk db') ∧
    (∀ db, embDimsOk db → ∀ e1 ∈ db.embeddings, ∀ e2 ∈ db.embeddings,
       e1.model = e2.model → e1.embedding.length = e2.embedding.length) :=
  ⟨fun _ _ _ => insert_preserves_embDims,
   fun _ _ _ => upsert_preserves_embDims,
   fun _ hd e1 h1 e2 h2 _ => by rw [hd e1 h1, hd e2 h2]⟩

/-- Witness for C7: the two same-model chunks of `embDbAC` have vectors of
equal length, and the overwritten database keeps all dimensions at 1536. -/
theorem embedding_dimension_fixed_witness :
    embRowA.embedding.length = embRowC.embedding.length ∧ embDimsOk embDb2 :=
  ⟨embedding_dimension_fixed.2.2 embDbAC
     (by intro e he
         simp only [embDbAC, List.mem_cons, List.mem_singleton,
           List.not_mem_nil] at he
         rcases he with rfl | rfl | h
         · exact List.length_replicate 1536 0
         · exact List.length_replicate 1536 3
         · exact absurd h (by simp))
     embRowA (by simp [embDbAC]) embRowC (by simp [embDbAC]) (by rfl),
   embedding_dimension_fixed.2.1 embDb1 embInpA2 embDb2
     (by intro e he
         simp only [embDb1, List.mem_singleton] at he
         subst he
         exact List.length_replicate 1536 0)
     (by rfl)⟩

/-! ## Claims C5 and C9 — external identity -/

/-- Counterexample to claim C5 as stated: `inpSmith` and `inpCapDup` have
distinct `(source, source_id)` pairs, yet upserting both does NOT preserve
both records — the second upsert fails with a uniqueness violation, because
the schema makes `source_id` unique on its own, not the pair. -/
theorem distinct_pairs_not_both_preserved_counterexample :
    (inpSmith.source, inpSmith.source_id) ≠ (inpCapDup.source, inpCapDup.source_id) ∧
    upsertOpinion db0 inpSmith = Except.ok smithDb ∧
    upsertOpinion smithDb inpCapDup = Except.error DbError.uniqueViolation := by
  refine ⟨by decide, by rfl, by rfl⟩

/-- Claim C5 (amended): the dedup key enforced by the schema is `source_id`
alone — stronger than pair uniqueness.  Upserting two opinions whose
source-native ids differ preserves both as separate records with distinct
internal ids; two records with distinct pairs but the same `source_id`
cannot coexist. -/
theorem distinct_source_ids_both_preserved (db : Db) (inpA inpB : OpinionInput)
    (db1 db2 : Db) (sidA sidB : String)
    (hfr : opinionIdsFresh db) (hun : opinionIdsUnique db)
    (hA : inpA.source_id = some sidA) (hB : inpB.source_id = some sidB)
    (hne : sidA ≠ sidB)
    (h1 : upsertOpinion db inpA = .ok db1)
    (h2 : upsertOpinion db1 inpB = .ok db2) :
    ∃ rA ∈ db2.opinions, ∃ rB ∈ db2.opinions,
      rA.source_id = some sidA ∧ rB.source_id = some sidB ∧ rA.id ≠ rB.id := by
  obtain ⟨hfr1, hun1⟩ := upsert_preserves_idInv hfr hun h1
  obtain ⟨hfr2, hun2⟩ := upsert_preserves_idInv hfr1 hun1 h2
  obtain ⟨rA, hrA, hsA⟩ := upsert_sid_present h1 hA
  obtain ⟨rA2, hrA2, hidA, hsidA⟩ := upsert_preserves_row_ids h2 rA hrA
  obtain ⟨rB, hrB, hsB⟩ := upsert_sid_present h2 hB
  refine ⟨rA2, hrA2, rB, hrB, by rw [hsidA, hsA], hsB, ?_⟩
  intro hid
  have hEq := hun2 rA2 hrA2 rB hrB hid
  have hx : some sidB = some sidA := by rw [← hsB, ← hEq, hsidA, hsA]
  exact hne (Option.some_inj.mp hx).symm

/-- Witness for the amended C5: both records coexist with distinct internal
ids after the two upserts. -/
theorem distinct_source_ids_both_preserved_witness :
    ∃ rA ∈ smithJonesDb.opinions, ∃ rB ∈ smithJonesDb.opinions,
      rA.source_id = some "cl-1001" ∧ rB.source_id = some "cap-77" ∧
      rA.id ≠ rB.id :=
  distinct_source_ids_both_preserved db0 inpSmith inpJones smithDb smithJonesDb
    "cl-1001" "cap-77"
    (by intro r hr
        exact absurd hr (List.not_mem_nil r))
    (by intro r1 h1
        exact absurd h1 (List.not_mem_nil r1))
    (by rfl) (by rfl) (by decide) (by rfl) (by rfl)

/-- Claim C9: `source_id` is unique globally, across sources — an INSERT
whose source-native id is already stored fails with a uniqueness violation
even when its source differs, and every successful INSERT preserves global
`source_id` uniqueness. -/
theorem source_id_globally_unique :
    (∀ db inp r sid, r ∈ db.opinions → r.source_id = some sid →
       inp.source_id = some sid → inp.source ≠ r.source →
       inp.case_name.isSome → inp.court.isSome →
       insertOpinion db inp = .error .uniqueViolation) ∧
    (∀ db inp db', sourceIdsUnique db → insertOpinion db inp = .ok db' →
       sourceIdsUnique db') := by
  constructor
  · intro db inp r sid hmem hr hinp hsrc hcn hct
    obtain ⟨cn, hcn'⟩ := Option.isSome_iff_exists.mp hcn
    obtain ⟨ct, hct'⟩ := Option.isSome_iff_exists.mp hct
    unfold insertOpinion
    rw [hcn', hct']
    dsimp only
    have hdup : dupSourceId db inp = true := by
      unfold dupSourceId
      rw [hinp]
      unfold sourceIdTaken
      exact List.any_eq_true.mpr ⟨r, hmem, decide_eq_true hr⟩
    rw [if_pos hdup]
  · intro db inp db' hu h
    exact insert_preserves_sourceIdsUnique hu h

/-- Witness for C9: inserting the `cap` record that reuses `cl-1001` fails,
and `smithDb` satisfies global `source_id` uniqueness. -/
theorem source_id_globally_unique_witness :
    insertOpinion smithDb inpCapDup = Except.error DbError.uniqueViolation ∧
    sourceIdsUnique smithDb :=
  ⟨source_id_globally_unique.1 smithDb inpCapDup smithRow "cl-1001"
     (by simp [smithDb]) (by rfl) (by rfl) (by decide) (by rfl) (by rfl),
   source_id_globally_unique.2 db0 inpSmith smithDb
     (by intro r1 h1
         exact absurd h1 (List.not_mem_nil r1))
     (by rfl)⟩

/-! ## Claim C10 -/

/-- Claim C10: `sendMessage` is a guarded no-op — with empty trimmed input,
no session id, or a request in flight it issues no request and leaves the
state unchanged; otherwise it appends exactly one user message, clears the
input, marks loading, and issues exactly one request carrying the session id
and the trimmed text. -/
theorem sendMessage_guarded_no_op (s : ChatState) (freshId : String) (now : Nat) :
    ((jsTrim s.input = "" ∨ s.sessionId = none ∨ s.isLoading = true) →
      sendMessage s freshId now = (s, none)) ∧
    (∀ sid, s.sessionId = some sid → jsTrim s.input ≠ "" → s.isLoading = false →
      sendMessage s freshId now =
        ({ s with
            messages := s.messages ++
              [{ id := freshId, role := ChatRole.user,
                 content := jsTrim s.input, timestamp := now }],
            input := "",
            isLoading := true },
         some { session_id := sid, message := jsTrim s.input })) := by
  constructor
  · intro hguard
    unfold sendMessage
    rcases hguard with he | hn | hl
    · rw [if_pos he]
    · by_cases he : jsTrim s.input = ""
      · rw [if_pos he]
      · rw [if_neg he, hn]
    · by_cases he : jsTrim s.input = ""
      · rw [if_pos he]
      · rw [if_neg he]
        cases hn : s.sessionId with
        | none => rfl
        | some sid =>
          dsimp only
          rw [if_pos hl]
  · intro sid hsid htext hload
    unfold sendMessage
    rw [if_neg htext, hsid]
    dsimp only
    rw [if_neg (by simp [hload])]

/-- Witness for C10: the busy state is a no-op; the ready state appends one
trimmed user message, clears the input and issues one request. -/
theorem sendMessage_guarded_no_op_witness :
    sendMessage chatBusy "m1" 5 = (chatBusy, none) ∧
    sendMessage chatReady "m1" 5 =
      ({ chatReady with
          messages := chatReady.messages ++
            [{ id := "m1", role := ChatRole.user,
               content := jsTrim chatReady.input, timestamp := 5 }],
          input := "",
          isLoading := true },
       some { session_id := "sess-1", message := jsTrim chatReady.input }) :=
  ⟨(sendMessage_guarded_no_op chatBusy "m1" 5).1 (Or.inr (Or.inr (by rfl))),
   (sendMessage_guarded_no_op chatReady "m1" 5).2 "sess-1" (by rfl)
     (by decide) (by rfl)⟩
